import Mathlib

/-!
Verification of the reconciliation engine of the `external-dns-tidydns-webhook`
repository against its natural-language specification.

Go strings are modelled as `List Char` (`Str`).  Machine integers (Go `int`,
`int64`) are modelled as `Int`, with explicit bounds where overflow matters.
`json.Number` values are modelled as `Str` together with an explicit decimal
parser mirroring `strconv.ParseInt`.  Fallible operations return `Except` or
`Option`.  The opaque `TidyDNSClient` is modelled as a record of response
functions; the calls the engine issues to it are collected as explicit traces.
-/

/-- Go strings modelled as lists of characters. -/
abbrev Str := List Char

/-- Coerce a Lean string literal to the `Str` model. -/
def str (s : String) : Str := s.data

/-- Go `strings.HasSuffix(s, suf)`: `len(s) >= len(suf) && s[len(s)-len(suf):] == suf`. -/
def hasSuffix (s suf : Str) : Bool :=
  suf.length ≤ s.length && s.drop (s.length - suf.length) = suf

/-- Go `strings.CutSuffix(s, suf)` (first component): the string without the
suffix when `HasSuffix` holds, the string unchanged otherwise. -/
def cutSuffix (s suf : Str) : Str :=
  if hasSuffix s suf then s.take (s.length - suf.length) else s

/-- Go `strings.TrimRight(s, string(c))`: remove every trailing occurrence of `c`. -/
def trimRightChar (c : Char) (s : Str) : Str :=
  (s.reverse.dropWhile (· = c)).reverse

/-- Go `strings.Trim(s, string(c))`: remove every leading and trailing occurrence of `c`. -/
def trimChar (c : Char) (s : Str) : Str :=
  trimRightChar c (s.dropWhile (· = c))

/-- Decimal digit characters of a natural number, most significant first,
prepended to `acc` (the digit production of Go `strconv`). -/
def digitsAux (n : Nat) (acc : List Char) : List Char :=
  if _h : n < 10 then Char.ofNat (48 + n) :: acc
  else digitsAux (n / 10) (Char.ofNat (48 + n % 10) :: acc)
termination_by n
decreasing_by exact Nat.div_lt_self (by omega) (by omega)

/-- Decimal representation of a natural number. -/
def natDigits (n : Nat) : List Char := digitsAux n []

/-- Go `strconv.Itoa` restricted to our `Int` model of machine integers. -/
def itoa (n : Int) : Str :=
  if n < 0 then '-' :: natDigits (-n).toNat else natDigits n.toNat

/-- Is `c` one of the characters `'0'`..`'9'`? -/
def isDigitChar (c : Char) : Bool := 48 ≤ c.toNat && c.toNat ≤ 57

/-- Accumulate one decimal digit. -/
def digitStep (a : Nat) (c : Char) : Nat := a * 10 + (c.toNat - 48)

/-- Parse a non-empty all-digit string as a natural number
(the digit loop of Go `strconv.ParseUint`). -/
def parseDigits (l : List Char) : Option Nat :=
  if l ≠ [] ∧ l.all isDigitChar then some (l.foldl digitStep 0) else none

/-- Go `strconv.ParseInt(s, 10, 64)`, hence `json.Number.Int64()`: optional
sign, non-empty digit run, result within the signed 64-bit range. -/
def parseInt64 : Str → Option Int
  | [] => none
  | c :: rest =>
    if c = '-' then
      match parseDigits rest with
      | none => none
      | some v => if v ≤ 2 ^ 63 then some (-(v : Int)) else none
    else
      match parseDigits (if c = '+' then rest else c :: rest) with
      | none => none
      | some v => if v ≤ 2 ^ 63 - 1 then some (v : Int) else none

/-- Number of decimal digits (recursion mirroring `digitsAux`). -/
def numDigits (n : Nat) : Nat :=
  if _h : n < 10 then 1 else numDigits (n / 10) + 1
termination_by n
decreasing_by exact Nat.div_lt_self (by omega) (by omega)

namespace Tidy

/-- `tidydns.Zone` (provider.go world): `{ID json.Number; Name string}`. -/
structure Zone where
  id : Str
  name : Str
  deriving Repr, DecidableEq

/-- `tidydns.Record`: one single-target record of the legacy system. -/
structure Record where
  id : Str
  type : Str
  name : Str
  description : Str
  destination : Str
  ttl : Str
  zoneName : Str
  zoneID : Str
  deriving Repr, DecidableEq

/-- `endpoint.Endpoint` of the orchestrator, treated as a plain data contract. -/
structure Endpoint where
  dnsName : Str
  recordType : Str
  recordTTL : Int
  targets : List Str
  labels : List (Str × Str)
  deriving Repr, DecidableEq

/-- `restrictTTL` (provider.go): TidyDNS does not accept TTLs under 300 except 0. -/
def restrictTTL (ttl : Int) : Int :=
  if ttl ≠ 0 ∧ ttl < 300 then 300 else ttl

/-- `tidyfyName` (provider.go): convert an FQDN into a zone-relative Tidy name
and the matching zone's id, scanning the zone list in order for the first zone
whose name is a suffix of the FQDN; `("", "0")` when no zone matches. -/
def tidyfyName : List Zone → Str → Str × Str
  | [], _ => ([], str "0")
  | zone :: zones, name =>
    if hasSuffix name zone.name then
      let cutted := cutSuffix name zone.name
      if cutted ≠ [] then (cutSuffix cutted (str "."), zone.id)
      else (str ".", zone.id)
    else tidyfyName zones name

/-- FQDN of a legacy record as computed by `parseTidyRecord` and `findRecords`:
the zone name when the record's name is `"."`, otherwise `name ++ "." ++ zoneName`. -/
def recordFQDN (r : Record) : Str :=
  if r.name = str "." then r.zoneName else r.name ++ str "." ++ r.zoneName

/-- The destination value `parseTidyRecord` places into the endpoint's targets:
a CNAME destination loses every trailing dot (`strings.TrimRight(dest, ".")`). -/
def parsedDestination (r : Record) : Str :=
  if r.type = str "CNAME" then trimRightChar '.' r.destination else r.destination

/-- `parseTidyRecord` (provider.go): convert a Tidy record into an endpoint.
Skips (`none`) when the computed FQDN is empty or the TTL does not parse as an
int64.  The orchestrator's endpoint constructor is an external data contract
and is taken as plain construction with a single target and empty labels. -/
def parseTidyRecord (r : Record) : Option Endpoint :=
  if recordFQDN r = [] then none
  else
    match parseInt64 r.ttl with
    | none => none
    | some ttl => some ⟨recordFQDN r, r.type, ttl, [parsedDestination r], []⟩

/-- The index scan of the merge loop in `Records`: `index` ends as the last
`i` whose accumulated endpoint shares `(DNSName, RecordType)` with `e`
(`-1`, i.e. `none`, when no such index exists). -/
def lastMatchIdx (acc : List Endpoint) (e : Endpoint) : Option Nat :=
  (acc.foldl
    (fun st ep =>
      (st.1 + 1,
       if ep.dnsName = e.dnsName ∧ ep.recordType = e.recordType then some st.1 else st.2))
    ((0 : Nat), (none : Option Nat))).2

/-- Append `ts` to the targets of the endpoint at position `i`. -/
def setTargets : List Endpoint → Nat → List Str → List Endpoint
  | [], _, _ => []
  | e :: es, 0, ts => { e with targets := e.targets ++ ts } :: es
  | e :: es, i + 1, ts => e :: setTargets es i ts

/-- One iteration of the merge loop in `Records`: append the parsed endpoint's
targets to a previously seen endpoint with the same key, or append the
endpoint itself. -/
def groupStep (acc : List Endpoint) (e : Endpoint) : List Endpoint :=
  match lastMatchIdx acc e with
  | some i => setTargets acc i e.targets
  | none => acc ++ [e]

/-- The whole merge loop of `Records` over already-parsed endpoints. -/
def groupParsed (acc : List Endpoint) (es : List Endpoint) : List Endpoint :=
  es.foldl groupStep acc

/-- The loop of `Records`: parse each record, skip the unparseable ones,
merge the rest key by key. -/
def groupEndpoints (rs : List Record) : List Endpoint :=
  rs.foldl
    (fun acc r =>
      match parseTidyRecord r with
      | none => acc
      | some e => groupStep acc e)
    []

/-- `allRecords` (provider.go): list the records of every zone of the
snapshot in order, concatenated; the first listing failure aborts the sweep. -/
def allRecords (listRecords : Str → Except Str (List Record)) :
    List Zone → Except Str (List Record)
  | [] => Except.ok []
  | z :: zs =>
    match listRecords z.id with
    | Except.error e => Except.error e
    | Except.ok rs =>
      match allRecords listRecords zs with
      | Except.error e => Except.error e
      | Except.ok rest => Except.ok (rs ++ rest)

/-- `Records` (provider.go) for a given zone snapshot: sweep all records,
then merge them into endpoints. -/
def Records (listRecords : Str → Except Str (List Record)) (zones : List Zone) :
    Except Str (List Endpoint) :=
  match allRecords listRecords zones with
  | Except.error e => Except.error e
  | Except.ok rs => Except.ok (groupEndpoints rs)

/-- `findRecords` (provider.go): for each target of the endpoint, in order,
collect every record whose computed FQDN, type and raw destination match. -/
def findRecords (records : List Record) (e : Endpoint) : List Record :=
  e.targets.foldl
    (fun found target =>
      found ++ records.filter
        (fun r =>
          decide (recordFQDN r = e.dnsName ∧ r.type = e.recordType ∧
            r.destination = target)))
    []

/-- The target normalization `createRecord` applies before submission:
enclosing double quotes are trimmed, and a CNAME target gains a trailing dot. -/
def normalizeTarget (recordType target : Str) : Str :=
  let t := trimChar '"' target
  if recordType = str "CNAME" then t ++ str "." else t

/-- The record literal `createRecord` submits for one target (unset Go
fields are their zero value, the empty string). -/
def mkCreateRecord (recordType name : Str) (ttl : Int) (target : Str) : Record :=
  { id := [], type := recordType, name := name, description := [],
    destination := normalizeTarget recordType target,
    ttl := itoa ttl, zoneName := [], zoneID := [] }

/-- All records `createRecord` would submit for an endpoint were every call to
succeed: one per target, or none when the name maps to no known zone. -/
def endpointToRecords (zones : List Zone) (e : Endpoint) : List Record :=
  if (tidyfyName zones e.dnsName).1 = [] then []
  else e.targets.map
    (mkCreateRecord e.recordType (tidyfyName zones e.dnsName).1 (restrictTTL e.recordTTL))

/-- The prefix of a loop body's inputs that is reached when the loop stops
right after the first input on which `p` fails. -/
def takeThrough (p : α → Bool) : List α → List α
  | [] => []
  | x :: xs => x :: (if p x then takeThrough p xs else [])

/-- `createRecord` (provider.go) as the trace of `CreateRecord(zoneID, rec)`
calls it issues: nothing when the DNS name maps to no zone; otherwise one call
per target in order, stopping (silently) right after the first failing call. -/
def createRecord (createOk : Str → Record → Bool) (zones : List Zone) (e : Endpoint) :
    List (Str × Record) :=
  if (tidyfyName zones e.dnsName).1 = [] then []
  else
    (takeThrough (createOk (tidyfyName zones e.dnsName).2)
        (e.targets.map
          (mkCreateRecord e.recordType (tidyfyName zones e.dnsName).1
            (restrictTTL e.recordTTL)))).map
      (fun r => ((tidyfyName zones e.dnsName).2, r))

/-- `deleteEndpoint` (provider.go) as the trace of `DeleteRecord(zoneID, id)`
calls it issues: one per matched record in order, stopping (silently) right
after the first failing call. -/
def deleteEndpoint (deleteOk : Str → Str → Bool) (allRecs : List Record) (e : Endpoint) :
    List (Str × Str) :=
  (takeThrough (fun r => deleteOk r.zoneID r.id) (findRecords allRecs e)).map
    (fun r => (r.zoneID, r.id))

/-- `plan.Changes`: the four-way changeset. -/
structure Changes where
  create : List Endpoint
  delete : List Endpoint
  updateOld : List Endpoint
  updateNew : List Endpoint

/-- The legacy client as the reconciliation engine sees it: per-zone record
listings, and the success of each create/delete call. -/
structure Client where
  listRecords : Str → Except Str (List Record)
  createOk : Str → Record → Bool
  deleteOk : Str → Str → Bool

/-- A `getZones()` read of the zone cache: the cache serves its `k`-th
snapshot and the read counter advances. -/
def getZones (snap : Nat → List Zone) (k : Nat) : List Zone × Nat := (snap k, k + 1)

/-- `allRecords` as the provider method runs it: it performs its own
`getZones()` read and sweeps that snapshot. -/
def allRecordsRead (cl : Client) (snap : Nat → List Zone) (k : Nat) :
    Except Str (List Record) × List Zone × Nat :=
  let zk := getZones snap k
  (allRecords cl.listRecords zk.1, zk.1, zk.2)

/-- Everything observable about one `ApplyChanges` call: the zone snapshots
each phase used, the client calls of each phase, and the returned value. -/
structure ApplyTrace where
  createSnapshot : List Zone
  prefetchSnapshot : List Zone
  createOps : List (List (Str × Record))
  deleteOps : List (List (Str × Str))
  updateOldOps : List (List (Str × Str))
  updateNewOps : List (List (Str × Record))
  result : Except Str Unit

/-- `ApplyChanges` (provider.go): read a zone snapshot, spawn the creates
against it, run the record pre-fetch (which performs its own zone read),
return its error if it failed (the spawned creates already run), else resolve
deletes and updates against the pre-fetched records and the first snapshot. -/
def ApplyChanges (cl : Client) (snap : Nat → List Zone) (k : Nat) (changes : Changes) :
    ApplyTrace × Nat :=
  let zk := getZones snap k
  let createOps := changes.create.map (createRecord cl.createOk zk.1)
  match allRecordsRead cl snap zk.2 with
  | (Except.error e, pz, k2) =>
    ({ createSnapshot := zk.1, prefetchSnapshot := pz, createOps := createOps,
       deleteOps := [], updateOldOps := [], updateNewOps := [],
       result := Except.error e }, k2)
  | (Except.ok recs, pz, k2) =>
    ({ createSnapshot := zk.1, prefetchSnapshot := pz, createOps := createOps,
       deleteOps := changes.delete.map (deleteEndpoint cl.deleteOk recs),
       updateOldOps := changes.updateOld.map (deleteEndpoint cl.deleteOk recs),
       updateNewOps := changes.updateNew.map (createRecord cl.createOk zk.1),
       result := Except.ok () }, k2)

end Tidy

namespace ZoneCache

/-- `tidydns.Zone` of the `cmd/webhook/tidydns` client used by the zone
provider: `{ID int; Name string}`. -/
structure Zone where
  id : Int
  name : Str
  deriving Repr, DecidableEq

/-- `ListZones` (tidydns.go): `zones := []Zone{}; err := c.request(...);
return zones, err` — when the request fails, the still-empty slice is
returned alongside the error. -/
def listZones (requestResult : Except Str (List Zone)) : List Zone × Option Str :=
  match requestResult with
  | Except.ok zs => (zs, none)
  | Except.error e => ([], some e)

/-- The events the zone-provider goroutine serializes: a `getZones()` read,
or the ticker firing with the given `ListZones` request outcome. -/
inductive Event where
  | read : Event
  | tick : Except Str (List Zone) → Event

/-- One loop iteration of the provider goroutine (zoneprovider.go): a read
sends the cached list and leaves it unchanged; a tick runs
`if zones, err = tidy.ListZones(); err != nil { log; continue }` — the cached
variable is assigned the returned slice before the error test, and an error
is only logged. -/
def step (cache : List Zone) : Event → List Zone
  | Event.read => cache
  | Event.tick res => (listZones res).1

/-- The cache contents after a sequence of serialized events. -/
def runEvents (init : List Zone) (evs : List Event) : List Zone :=
  evs.foldl step init

/-- `getZones` (zoneprovider.go): a read served from the current cache. -/
def getZones (cache : List Zone) : List Zone := cache

end ZoneCache

theorem digitChar_toNat {m : Nat} (h : m < 10) : (Char.ofNat (48 + m)).toNat = 48 + m := by
  interval_cases m <;> decide

theorem isDigitChar_digitChar {m : Nat} (h : m < 10) : isDigitChar (Char.ofNat (48 + m)) = true := by
  interval_cases m <;> decide

theorem digitsAux_ne_nil (n : Nat) (acc : List Char) : digitsAux n acc ≠ [] := by
  induction n using Nat.strong_induction_on generalizing acc with
  | _ n ih =>
    rw [digitsAux]
    split
    · simp
    · exact ih (n / 10) (Nat.div_lt_self (by omega) (by omega)) _

theorem digitsAux_all_digits (n : Nat) (acc : List Char) (hacc : acc.all isDigitChar = true) :
    (digitsAux n acc).all isDigitChar = true := by
  induction n using Nat.strong_induction_on generalizing acc with
  | _ n ih =>
    rw [digitsAux]
    split
    · rename_i h
      simp [List.all_cons, isDigitChar_digitChar h, hacc]
    · rename_i h
      refine ih (n / 10) (Nat.div_lt_self (by omega) (by omega)) _ ?_
      simp [List.all_cons, isDigitChar_digitChar (Nat.mod_lt n (by omega)), hacc]

theorem digitsAux_foldl (n : Nat) (acc : List Char) (a : Nat) :
    (digitsAux n acc).foldl digitStep a = acc.foldl digitStep (a * 10 ^ numDigits n + n) := by
  induction n using Nat.strong_induction_on generalizing acc a with
  | _ n ih =>
    rw [digitsAux, numDigits]
    split
    · rename_i h
      simp only [List.foldl_cons, digitStep, digitChar_toNat h, pow_one]
      congr 1
      omega
    · rename_i h
      rw [ih (n / 10) (Nat.div_lt_self (by omega) (by omega))]
      simp only [List.foldl_cons, digitStep, digitChar_toNat (Nat.mod_lt n (by omega))]
      congr 1
      have h10 : (48 : Nat) + n % 10 - 48 = n % 10 := by omega
      rw [h10, pow_succ]
      have : a * (10 ^ numDigits (n / 10) * 10) + n =
          (a * 10 ^ numDigits (n / 10) + n / 10) * 10 + n % 10 := by
        have := Nat.div_add_mod n 10
        ring_nf
        omega
      omega

theorem parseDigits_natDigits (n : Nat) : parseDigits (natDigits n) = some n := by
  unfold parseDigits natDigits
  rw [if_pos ⟨digitsAux_ne_nil n [], digitsAux_all_digits n [] rfl⟩]
  rw [digitsAux_foldl n [] 0]
  simp [List.foldl_nil]

theorem parseInt64_itoa {n : Int} (h0 : 0 ≤ n) (h : n ≤ 2 ^ 63 - 1) :
    parseInt64 (itoa n) = some n := by
  have hneg : ¬ n < 0 := not_lt.mpr h0
  rw [itoa, if_neg hneg]
  rcases hnd : natDigits n.toNat with _ | ⟨c, rest⟩
  · exact absurd hnd (digitsAux_ne_nil _ _)
  · have hall : (natDigits n.toNat).all isDigitChar = true := digitsAux_all_digits _ [] rfl
    have hc : isDigitChar c = true := by
      rw [hnd, List.all_cons, Bool.and_eq_true] at hall
      exact hall.1
    have hc48 : 48 ≤ c.toNat := by
      rw [isDigitChar, Bool.and_eq_true, decide_eq_true_eq, decide_eq_true_eq] at hc
      exact hc.1
    have hcm : c ≠ '-' := by
      intro he; rw [he] at hc48; exact absurd hc48 (by decide)
    have hcp : c ≠ '+' := by
      intro he; rw [he] at hc48; exact absurd hc48 (by decide)
    have hpd : parseDigits (c :: rest) = some n.toNat := by
      rw [← hnd]; exact parseDigits_natDigits n.toNat
    simp only [parseInt64, if_neg hcm, if_neg hcp, hpd]
    have hrange : n.toNat ≤ 2 ^ 63 - 1 := by omega
    rw [if_pos hrange]
    congr 1
    omega


/-- C8: for every integer TTL input `t`, the TTL clamp returns `t` itself when
`t = 0` or `t ≥ 300`, and returns `300` otherwise. -/
theorem restrictTTL_clamps (t : Int) :
    Tidy.restrictTTL t = if t = 0 ∨ 300 ≤ t then t else 300 := by
  unfold Tidy.restrictTTL
  by_cases h0 : t = 0
  · simp [h0]
  · by_cases h3 : t < 300
    · simp [h0, h3, Int.not_le.mpr h3]
    · simp [h0, h3, Int.not_lt.mp h3]

/-- C9: for the zone `example.com`, `tidyfyName` maps the FQDN `example.com`
to `(".", zoneId)` and `sub.example.com` to `("sub", zoneId)`; an FQDN matching
no known zone maps to the sentinel `("", "0")`. -/
theorem tidyfyName_mapping :
    (∀ zid : Str,
      Tidy.tidyfyName [⟨zid, str "example.com"⟩] (str "example.com") = (str ".", zid)) ∧
    (∀ zid : Str,
      Tidy.tidyfyName [⟨zid, str "example.com"⟩] (str "sub.example.com") = (str "sub", zid)) ∧
    (∀ (zones : List Tidy.Zone) (name : Str),
      (∀ z ∈ zones, hasSuffix name z.name = false) →
      Tidy.tidyfyName zones name = ([], str "0")) := by
  refine ⟨fun zid => ?_, fun zid => ?_, fun zones name h => ?_⟩
  · rfl
  · rfl
  · induction zones with
    | nil => rfl
    | cons z zs ih =>
      have hz := h z (List.mem_cons_self z zs)
      unfold Tidy.tidyfyName
      simp only [hz, Bool.false_eq_true, if_false]
      exact ih (fun z' hz' => h z' (List.mem_cons_of_mem z hz'))

/-- Closed witness for `tidyfyName_mapping`. -/
theorem tidyfyName_mapping_witness :
    Tidy.tidyfyName [⟨str "7", str "example.com"⟩] (str "sub.example.com") = (str "sub", str "7") ∧
    Tidy.tidyfyName [⟨str "7", str "example.com"⟩] (str "other.org") = ([], str "0") := by
  refine ⟨tidyfyName_mapping.2.1 (str "7"), ?_⟩
  exact tidyfyName_mapping.2.2 [⟨str "7", str "example.com"⟩] (str "other.org") (by decide)

/-- C1 (evaluation of the defect): after a successful initial population with
one zone, a single failed periodic refresh leaves the cache — and hence every
subsequent `getZones()` — as the empty zone list that `ListZones` returned
alongside the error, not the previously cached list. -/
theorem zoneCache_failed_refresh_overwrites :
    ZoneCache.getZones
        (ZoneCache.runEvents [⟨1, str "example.com"⟩]
          [ZoneCache.Event.tick (Except.error (str "tidy unavailable"))]) = [] ∧
    ZoneCache.getZones (ZoneCache.runEvents [⟨1, str "example.com"⟩] []) =
      [⟨1, str "example.com"⟩] ∧
    ([] : List ZoneCache.Zone) ≠ [⟨1, str "example.com"⟩] := by
  exact ⟨rfl, rfl, by decide⟩

/-- The record sweep errs exactly when listing some zone of the snapshot errs. -/
theorem allRecords_error_iff (lr : Str → Except Str (List Tidy.Record))
    (zones : List Tidy.Zone) :
    (∃ e, Tidy.allRecords lr zones = Except.error e) ↔
      ∃ z ∈ zones, ∃ e, lr z.id = Except.error e := by
  induction zones with
  | nil => simp [Tidy.allRecords]
  | cons z zs ih =>
    unfold Tidy.allRecords
    cases hz : lr z.id with
    | error e =>
      simp only [hz]
      exact ⟨fun _ => ⟨z, List.mem_cons_self z zs, e, hz⟩, fun _ => ⟨e, rfl⟩⟩
    | ok rs =>
      simp only [hz]
      cases hrest : Tidy.allRecords lr zs with
      | error e =>
        simp only [hrest]
        refine ⟨fun _ => ?_, fun _ => ⟨e, rfl⟩⟩
        obtain ⟨z', hz', he⟩ := ih.mp ⟨e, hrest⟩
        exact ⟨z', List.mem_cons_of_mem z hz', he⟩
      | ok rest =>
        simp only [hrest]
        constructor
        · rintro ⟨e, he⟩
          cases he
        · rintro ⟨z', hz', e, he⟩
          rcases List.mem_cons.mp hz' with h | h
          · rw [h, hz] at he
            cases he
          · obtain ⟨e', he'⟩ := ih.mpr ⟨z', h, e, he⟩
            rw [hrest] at he'
            cases he'

/-- The returned value of `ApplyChanges` is exactly the record pre-fetch's
outcome with the record list discarded. -/
theorem ApplyChanges_result (cl : Tidy.Client) (snap : Nat → List Tidy.Zone)
    (k : Nat) (changes : Tidy.Changes) :
    (Tidy.ApplyChanges cl snap k changes).1.result
      = (Tidy.allRecords cl.listRecords (snap (k + 1))).map (fun _ => ()) := by
  unfold Tidy.ApplyChanges Tidy.allRecordsRead Tidy.getZones
  cases h : Tidy.allRecords cl.listRecords (snap (k + 1)) <;> simp [h, Except.map]

/-- C4: `applyChanges` returns an error exactly when the mandatory pre-fetch
(the record listing sweep; the zone-cache read cannot fail) fails, and its
returned value never depends on the outcomes of the per-endpoint create or
delete calls. -/
theorem ApplyChanges_error_iff_prefetch (cl : Tidy.Client) (snap : Nat → List Tidy.Zone)
    (k : Nat) (changes : Tidy.Changes) :
    ((Tidy.ApplyChanges cl snap k changes).1.result
        = (Tidy.allRecords cl.listRecords (snap (k + 1))).map (fun _ => ())) ∧
    ((∃ e, (Tidy.ApplyChanges cl snap k changes).1.result = Except.error e) ↔
      ∃ z ∈ snap (k + 1), ∃ e, cl.listRecords z.id = Except.error e) ∧
    (∀ cOk dOk,
      (Tidy.ApplyChanges { cl with createOk := cOk, deleteOk := dOk } snap k changes).1.result
        = (Tidy.ApplyChanges cl snap k changes).1.result) := by
  refine ⟨ApplyChanges_result cl snap k changes, ?_, ?_⟩
  · rw [← allRecords_error_iff cl.listRecords (snap (k + 1))]
    rw [ApplyChanges_result cl snap k changes]
    cases h : Tidy.allRecords cl.listRecords (snap (k + 1)) <;>
      simp [Except.map]
  · intro cOk dOk
    rw [ApplyChanges_result, ApplyChanges_result]

/-- Skipping unparseable records inside the merge loop is the same as merging
the parseable ones. -/
theorem groupEndpoints_eq_filterMap (rs : List Tidy.Record) :
    Tidy.groupEndpoints rs =
      Tidy.groupParsed [] (rs.filterMap Tidy.parseTidyRecord) := by
  suffices h : ∀ (l : List Tidy.Record) (acc : List Tidy.Endpoint),
      l.foldl
        (fun acc r =>
          match Tidy.parseTidyRecord r with
          | none => acc
          | some e => Tidy.groupStep acc e) acc
        = Tidy.groupParsed acc (l.filterMap Tidy.parseTidyRecord) by
    exact h rs []
  intro l
  induction l with
  | nil => intro acc; rfl
  | cons r l ih =>
    intro acc
    rw [List.foldl_cons, List.filterMap_cons]
    cases hp : Tidy.parseTidyRecord r with
    | none => exact ih acc
    | some e =>
      rw [ih (Tidy.groupStep acc e)]
      rfl

/-- C5: `Records` (listEndpoints) over a zone snapshot errs — with no partial
result — exactly when listing the records of some zone of the snapshot errs;
on success, records whose translation fails are dropped individually and all
remaining records are still merged. -/
theorem Records_error_iff_and_drops (lr : Str → Except Str (List Tidy.Record))
    (zones : List Tidy.Zone) :
    ((∃ e, Tidy.Records lr zones = Except.error e) ↔
      ∃ z ∈ zones, ∃ e, lr z.id = Except.error e) ∧
    (∀ rs, Tidy.allRecords lr zones = Except.ok rs →
      Tidy.Records lr zones =
        Except.ok (Tidy.groupParsed [] (rs.filterMap Tidy.parseTidyRecord))) := by
  constructor
  · rw [← allRecords_error_iff lr zones]
    unfold Tidy.Records
    cases h : Tidy.allRecords lr zones <;> simp
  · intro rs h
    unfold Tidy.Records
    rw [h]
    show Except.ok (Tidy.groupEndpoints rs) = _
    rw [groupEndpoints_eq_filterMap]

/-- Closed witness for `Records_error_iff_and_drops`: a batch holding a record
with an unparseable TTL still yields the merge of the remaining records. -/
theorem Records_error_iff_and_drops_witness :
    Tidy.allRecords
        (fun _ => Except.ok
          [⟨str "1", str "A", str "good", [], str "1.2.3.4", str "300", str "example.com", str "1"⟩,
           ⟨str "2", str "A", str "bad", [], str "1.2.3.4", str "oops", str "example.com", str "1"⟩])
        [⟨str "1", str "example.com"⟩]
      = Except.ok
          [⟨str "1", str "A", str "good", [], str "1.2.3.4", str "300", str "example.com", str "1"⟩,
           ⟨str "2", str "A", str "bad", [], str "1.2.3.4", str "oops", str "example.com", str "1"⟩] ∧
    Tidy.Records
        (fun _ => Except.ok
          [⟨str "1", str "A", str "good", [], str "1.2.3.4", str "300", str "example.com", str "1"⟩,
           ⟨str "2", str "A", str "bad", [], str "1.2.3.4", str "oops", str "example.com", str "1"⟩])
        [⟨str "1", str "example.com"⟩]
      = Except.ok
          (Tidy.groupParsed []
            ([⟨str "1", str "A", str "good", [], str "1.2.3.4", str "300", str "example.com", str "1"⟩,
              ⟨str "2", str "A", str "bad", [], str "1.2.3.4", str "oops", str "example.com", str "1"⟩].filterMap
              Tidy.parseTidyRecord)) := by
  refine ⟨rfl, ?_⟩
  exact (Records_error_iff_and_drops _ _).2 _ rfl

/-- Appending targets at an index never changes the number of endpoints. -/
theorem setTargets_length (acc : List Tidy.Endpoint) :
    ∀ (i : Nat) (ts : List Str), (Tidy.setTargets acc i ts).length = acc.length := by
  induction acc with
  | nil => intro i ts; rfl
  | cons e es ih =>
    intro i ts
    cases i with
    | zero => simp [Tidy.setTargets]
    | succ i => simp [Tidy.setTargets, ih i ts]

/-- One merge step grows the endpoint list by at most one. -/
theorem groupStep_length (acc : List Tidy.Endpoint) (e : Tidy.Endpoint) :
    (Tidy.groupStep acc e).length ≤ acc.length + 1 := by
  unfold Tidy.groupStep
  cases Tidy.lastMatchIdx acc e with
  | none => simp
  | some i => rw [setTargets_length]; omega

/-- The merge loop emits at most one endpoint per input endpoint. -/
theorem groupParsed_length (es : List Tidy.Endpoint) :
    ∀ acc : List Tidy.Endpoint, (Tidy.groupParsed acc es).length ≤ acc.length + es.length := by
  induction es with
  | nil => intro acc; simp [Tidy.groupParsed]
  | cons e es ih =>
    intro acc
    have h1 := ih (Tidy.groupStep acc e)
    have h2 := groupStep_length acc e
    simp only [Tidy.groupParsed, List.foldl_cons] at h1 ⊢
    calc (es.foldl Tidy.groupStep (Tidy.groupStep acc e)).length
        ≤ (Tidy.groupStep acc e).length + es.length := h1
      _ ≤ acc.length + 1 + es.length := by omega
      _ = acc.length + (e :: es).length := by simp; omega

/-- The fields of a successfully translated record. -/
theorem parseTidyRecord_fields {r : Tidy.Record} {e : Tidy.Endpoint}
    (h : Tidy.parseTidyRecord r = some e) :
    e.dnsName = Tidy.recordFQDN r ∧ e.recordType = r.type ∧
    e.targets = [Tidy.parsedDestination r] := by
  simp only [Tidy.parseTidyRecord] at h
  split at h
  · cases h
  · cases hp : parseInt64 r.ttl with
    | none => rw [hp] at h; cases h
    | some ttl =>
      rw [hp] at h
      simp only [Option.some.injEq] at h
      subst h
      exact ⟨rfl, rfl, rfl⟩

/-- C6: the merge of `Records` emits at most one endpoint per input record,
and two records of one zone identical in `(name, zoneName, type)` but with
different destinations merge into exactly one endpoint holding both
destinations in first-seen order. -/
theorem Records_grouping :
    (∀ rs : List Tidy.Record, (Tidy.groupEndpoints rs).length ≤ rs.length) ∧
    (∀ (lr : Str → Except Str (List Tidy.Record)) (z : Tidy.Zone)
        (r1 r2 : Tidy.Record) (e1 e2 : Tidy.Endpoint),
      lr z.id = Except.ok [r1, r2] →
      Tidy.parseTidyRecord r1 = some e1 →
      Tidy.parseTidyRecord r2 = some e2 →
      r1.name = r2.name → r1.zoneName = r2.zoneName → r1.type = r2.type →
      r1.destination ≠ r2.destination →
      Tidy.Records lr [z] =
        Except.ok
          [{ e1 with targets := [Tidy.parsedDestination r1, Tidy.parsedDestination r2] }]) := by
  constructor
  · intro rs
    rw [groupEndpoints_eq_filterMap]
    calc (Tidy.groupParsed [] (rs.filterMap Tidy.parseTidyRecord)).length
        ≤ 0 + (rs.filterMap Tidy.parseTidyRecord).length := groupParsed_length _ []
      _ ≤ rs.length := by simpa using List.length_filterMap_le Tidy.parseTidyRecord rs
  · intro lr z r1 r2 e1 e2 hlr hp1 hp2 hname hzone htype _hdest
    obtain ⟨f1d, f1t, f1tg⟩ := parseTidyRecord_fields hp1
    obtain ⟨f2d, f2t, f2tg⟩ := parseTidyRecord_fields hp2
    have hdns : e1.dnsName = e2.dnsName := by
      rw [f1d, f2d]
      unfold Tidy.recordFQDN
      rw [hname, hzone]
    have hty : e1.recordType = e2.recordType := by rw [f1t, f2t, htype]
    have hidx : Tidy.lastMatchIdx [e1] e2 = some 0 := by
      simp [Tidy.lastMatchIdx, hdns, hty]
    have hall : Tidy.allRecords lr [z] = Except.ok [r1, r2] := by
      unfold Tidy.allRecords
      rw [hlr]
      rfl
    have hge : Tidy.groupEndpoints [r1, r2] =
        [{ e1 with targets := e1.targets ++ e2.targets }] := by
      unfold Tidy.groupEndpoints
      simp only [List.foldl_cons, List.foldl_nil, hp1, hp2]
      have h1 : Tidy.groupStep [] e1 = [e1] := rfl
      rw [h1]
      unfold Tidy.groupStep
      rw [hidx]
      rfl
    unfold Tidy.Records
    rw [hall]
    show Except.ok (Tidy.groupEndpoints [r1, r2]) = _
    rw [hge, f1tg, f2tg]
    rfl

/-- Closed witness for `Records_grouping`: two A records for `multi` in
`example.com` with different destinations merge into a single endpoint. -/
theorem Records_grouping_witness :
    Tidy.parseTidyRecord
        ⟨str "3", str "A", str "multi", [], str "1.2.3.4", str "300", str "example.com", str "1"⟩
      = some ⟨str "multi.example.com", str "A", 300, [str "1.2.3.4"], []⟩ ∧
    Tidy.Records
        (fun _ => Except.ok
          [⟨str "3", str "A", str "multi", [], str "1.2.3.4", str "300", str "example.com", str "1"⟩,
           ⟨str "4", str "A", str "multi", [], str "5.6.7.8", str "300", str "example.com", str "1"⟩])
        [⟨str "1", str "example.com"⟩]
      = Except.ok [⟨str "multi.example.com", str "A", 300, [str "1.2.3.4", str "5.6.7.8"], []⟩] := by
  constructor
  · decide
  · exact Records_grouping.2 _ ⟨str "1", str "example.com"⟩
      ⟨str "3", str "A", str "multi", [], str "1.2.3.4", str "300", str "example.com", str "1"⟩
      ⟨str "4", str "A", str "multi", [], str "5.6.7.8", str "300", str "example.com", str "1"⟩
      ⟨str "multi.example.com", str "A", 300, [str "1.2.3.4"], []⟩
      ⟨str "multi.example.com", str "A", 300, [str "5.6.7.8"], []⟩
      rfl (by decide) (by decide) rfl rfl rfl (by decide)

/-- Membership in the target-by-target filter-append loop of `findRecords`. -/
theorem mem_foldl_filter_append (p : Str → Tidy.Record → Bool)
    (records : List Tidy.Record) :
    ∀ (ts : List Str) (acc : List Tidy.Record) (r : Tidy.Record),
      (r ∈ ts.foldl (fun found t => found ++ records.filter (p t)) acc) ↔
        r ∈ acc ∨ ∃ t ∈ ts, r ∈ records ∧ p t r = true := by
  intro ts
  induction ts with
  | nil => intro acc r; simp
  | cons t ts ih =>
    intro acc r
    rw [List.foldl_cons, ih]
    simp only [List.mem_append, List.mem_filter, List.mem_cons, exists_eq_or_imp, or_assoc]

/-- C3 (amended): during delete resolution a record matches iff its computed
FQDN equals the endpoint's dnsName, its type equals the endpoint's type, and
its destination equals some target RAW — with no trailing-dot or quote
normalization applied to the target. -/
theorem findRecords_matches_raw (records : List Tidy.Record) (e : Tidy.Endpoint)
    (r : Tidy.Record) :
    r ∈ Tidy.findRecords records e ↔
      r ∈ records ∧ Tidy.recordFQDN r = e.dnsName ∧ r.type = e.recordType ∧
        ∃ t ∈ e.targets, r.destination = t := by
  unfold Tidy.findRecords
  rw [mem_foldl_filter_append]
  simp only [List.not_mem_nil, false_or, decide_eq_true_eq]
  constructor
  · rintro ⟨t, ht, hr, hfq, hty, hd⟩
    exact ⟨hr, hfq, hty, t, ht, hd⟩
  · rintro ⟨hr, hfq, hty, t, ht, hd⟩
    exact ⟨t, ht, hr, hfq, hty, hd⟩

/-- C3 counterexample: a CNAME record stored with the trailing dot that the
create path appends does NOT match the same endpoint's undotted target, even
though FQDN and type match and the destinations agree after the create-path
normalization — the claimed normalized matching does not hold. -/
theorem findRecords_normalization_counterexample :
    Tidy.findRecords
        [⟨str "2", str "CNAME", str "www", [], str "target.example.org.", str "300",
          str "example.com", str "1"⟩]
        ⟨str "www.example.com", str "CNAME", 300, [str "target.example.org"], []⟩
      = [] ∧
    Tidy.recordFQDN
        ⟨str "2", str "CNAME", str "www", [], str "target.example.org.", str "300",
          str "example.com", str "1"⟩
      = str "www.example.com" ∧
    Tidy.Record.type
        ⟨str "2", str "CNAME", str "www", [], str "target.example.org.", str "300",
          str "example.com", str "1"⟩
      = str "CNAME" ∧
    Tidy.Record.destination
        ⟨str "2", str "CNAME", str "www", [], str "target.example.org.", str "300",
          str "example.com", str "1"⟩
      = Tidy.normalizeTarget (str "CNAME") (str "target.example.org") := by
  refine ⟨?_, ?_, ?_, ?_⟩ <;> decide

/-- A loop that stops right after its first failing element visits exactly the
prefix through that element. -/
theorem takeThrough_eq_take {α : Type} (p : α → Bool) :
    ∀ (l : List α) (i : Nat) (h : i < l.length),
      (∀ j (hj : j < i), p (l.get ⟨j, Nat.lt_trans hj h⟩) = true) →
      p (l.get ⟨i, h⟩) = false →
      Tidy.takeThrough p l = l.take (i + 1) := by
  intro l
  induction l with
  | nil => intro i h; exact absurd h (by simp)
  | cons x xs ih =>
    intro i h hbefore hfail
    cases i with
    | zero =>
      have hx : p x = false := hfail
      unfold Tidy.takeThrough
      rw [hx]
      rfl
    | succ i =>
      have hx : p x = true := hbefore 0 (Nat.succ_pos i)
      unfold Tidy.takeThrough
      rw [hx]
      have h' : i < xs.length := by simpa using h
      rw [if_pos rfl, ih i h' (fun j hj => hbefore (j + 1) (Nat.succ_lt_succ hj)) hfail]
      rfl

/-- `createRecord` issues the take-through-first-failure prefix of the records
`endpointToRecords` expands the endpoint into. -/
theorem createRecord_eq_takeThrough (ok : Str → Tidy.Record → Bool)
    (zones : List Tidy.Zone) (e : Tidy.Endpoint)
    (h : (Tidy.tidyfyName zones e.dnsName).1 ≠ []) :
    Tidy.createRecord ok zones e =
      (Tidy.takeThrough (ok (Tidy.tidyfyName zones e.dnsName).2)
          (Tidy.endpointToRecords zones e)).map
        (fun r => ((Tidy.tidyfyName zones e.dnsName).2, r)) := by
  unfold Tidy.createRecord Tidy.endpointToRecords
  rw [if_neg h, if_neg h]

/-- C10: within one endpoint, per-target submission stops at the first
failure: if the `i`-th create call of an endpoint fails, exactly the calls up
to and including `i` are issued; likewise, if the `i`-th delete of an
endpoint's matched records fails, exactly the deletes up to and including `i`
are issued. -/
theorem perEndpoint_stops_at_first_failure :
    (∀ (ok : Str → Tidy.Record → Bool) (zones : List Tidy.Zone) (e : Tidy.Endpoint)
        (i : Nat) (h : i < (Tidy.endpointToRecords zones e).length),
      (Tidy.tidyfyName zones e.dnsName).1 ≠ [] →
      (∀ j (hj : j < i),
        ok (Tidy.tidyfyName zones e.dnsName).2
          ((Tidy.endpointToRecords zones e).get ⟨j, Nat.lt_trans hj h⟩) = true) →
      ok (Tidy.tidyfyName zones e.dnsName).2
        ((Tidy.endpointToRecords zones e).get ⟨i, h⟩) = false →
      Tidy.createRecord ok zones e =
        ((Tidy.endpointToRecords zones e).take (i + 1)).map
          (fun r => ((Tidy.tidyfyName zones e.dnsName).2, r))) ∧
    (∀ (delOk : Str → Str → Bool) (allRecs : List Tidy.Record) (e : Tidy.Endpoint)
        (i : Nat) (h : i < (Tidy.findRecords allRecs e).length),
      (∀ j (hj : j < i),
        delOk ((Tidy.findRecords allRecs e).get ⟨j, Nat.lt_trans hj h⟩).zoneID
          ((Tidy.findRecords allRecs e).get ⟨j, Nat.lt_trans hj h⟩).id = true) →
      delOk ((Tidy.findRecords allRecs e).get ⟨i, h⟩).zoneID
        ((Tidy.findRecords allRecs e).get ⟨i, h⟩).id = false →
      Tidy.deleteEndpoint delOk allRecs e =
        ((Tidy.findRecords allRecs e).take (i + 1)).map (fun r => (r.zoneID, r.id))) := by
  constructor
  · intro ok zones e i h hname hbefore hfail
    rw [createRecord_eq_takeThrough ok zones e hname,
      takeThrough_eq_take _ _ i h hbefore hfail]
  · intro delOk allRecs e i h hbefore hfail
    unfold Tidy.deleteEndpoint
    rw [takeThrough_eq_take _ _ i h hbefore hfail]

/-- Closed witness for `perEndpoint_stops_at_first_failure`: with every call
failing, a two-target endpoint issues exactly its first create call, and an
endpoint with one matched record issues exactly its first delete call. -/
theorem perEndpoint_stops_witness :
    Tidy.createRecord (fun _ _ => false) [⟨str "1", str "example.com"⟩]
        ⟨str "www.example.com", str "A", 300, [str "1.2.3.4", str "5.6.7.8"], []⟩
      = ((Tidy.endpointToRecords [⟨str "1", str "example.com"⟩]
            ⟨str "www.example.com", str "A", 300, [str "1.2.3.4", str "5.6.7.8"], []⟩).take 1).map
          (fun r =>
            ((Tidy.tidyfyName [⟨str "1", str "example.com"⟩] (str "www.example.com")).2, r)) ∧
    Tidy.deleteEndpoint (fun _ _ => false)
        [⟨str "9", str "A", str "www", [], str "1.2.3.4", str "300", str "example.com", str "1"⟩]
        ⟨str "www.example.com", str "A", 300, [str "1.2.3.4"], []⟩
      = ((Tidy.findRecords
            [⟨str "9", str "A", str "www", [], str "1.2.3.4", str "300", str "example.com", str "1"⟩]
            ⟨str "www.example.com", str "A", 300, [str "1.2.3.4"], []⟩).take 1).map
          (fun r => (r.zoneID, r.id)) := by
  constructor
  · exact perEndpoint_stops_at_first_failure.1 (fun _ _ => false)
      [⟨str "1", str "example.com"⟩]
      ⟨str "www.example.com", str "A", 300, [str "1.2.3.4", str "5.6.7.8"], []⟩
      0 (by decide) (by decide) (fun j hj => absurd hj (Nat.not_lt_zero j)) rfl
  · exact perEndpoint_stops_at_first_failure.2 (fun _ _ => false)
      [⟨str "9", str "A", str "www", [], str "1.2.3.4", str "300", str "example.com", str "1"⟩]
      ⟨str "www.example.com", str "A", 300, [str "1.2.3.4"], []⟩
      0 (by decide) (fun j hj => absurd hj (Nat.not_lt_zero j)) rfl

/-- C2 (amended): one `ApplyChanges` call reads the zone cache exactly twice —
once up front, with all create and update-new operations sharing that first
snapshot, and once inside the record pre-fetch, whose snapshot the delete and
update-old resolutions are based on. -/
theorem ApplyChanges_two_snapshots (cl : Tidy.Client) (snap : Nat → List Tidy.Zone)
    (k : Nat) (changes : Tidy.Changes) :
    (Tidy.ApplyChanges cl snap k changes).2 = k + 2 ∧
    (Tidy.ApplyChanges cl snap k changes).1.createSnapshot = snap k ∧
    (Tidy.ApplyChanges cl snap k changes).1.prefetchSnapshot = snap (k + 1) ∧
    (Tidy.ApplyChanges cl snap k changes).1.createOps
      = changes.create.map (Tidy.createRecord cl.createOk (snap k)) ∧
    (∀ recs, Tidy.allRecords cl.listRecords (snap (k + 1)) = Except.ok recs →
      (Tidy.ApplyChanges cl snap k changes).1.deleteOps
          = changes.delete.map (Tidy.deleteEndpoint cl.deleteOk recs) ∧
        (Tidy.ApplyChanges cl snap k changes).1.updateOldOps
          = changes.updateOld.map (Tidy.deleteEndpoint cl.deleteOk recs) ∧
        (Tidy.ApplyChanges cl snap k changes).1.updateNewOps
          = changes.updateNew.map (Tidy.createRecord cl.createOk (snap k))) := by
  unfold Tidy.ApplyChanges Tidy.allRecordsRead Tidy.getZones
  cases h : Tidy.allRecords cl.listRecords (snap (k + 1)) with
  | error e =>
    simp only [h]
    exact ⟨trivial, trivial, trivial, trivial, fun recs hrecs => by cases hrecs⟩
  | ok recs' =>
    simp only [h]
    exact ⟨trivial, trivial, trivial, trivial, fun recs hrecs => by
      cases hrecs
      exact ⟨rfl, rfl, trivial⟩⟩

/-- C2 counterexample: with a cache whose snapshot changes between the two
reads, one `ApplyChanges` call performs two zone-cache reads (not one), and
its create phase and its record pre-fetch see different zone lists. -/
theorem ApplyChanges_single_read_counterexample :
    (Tidy.ApplyChanges
        ⟨fun _ => Except.ok [], fun _ _ => true, fun _ _ => true⟩
        (fun j => if j = 0 then [⟨str "1", str "example.com"⟩]
          else [⟨str "2", str "example.org"⟩])
        0
        ⟨[⟨str "www.example.com", str "A", 300, [str "1.2.3.4"], []⟩],
          [⟨str "old.example.com", str "A", 300, [str "5.6.7.8"], []⟩], [], []⟩).2 = 2 ∧
    (2 : Nat) ≠ 1 ∧
    (Tidy.ApplyChanges
        ⟨fun _ => Except.ok [], fun _ _ => true, fun _ _ => true⟩
        (fun j => if j = 0 then [⟨str "1", str "example.com"⟩]
          else [⟨str "2", str "example.org"⟩])
        0
        ⟨[⟨str "www.example.com", str "A", 300, [str "1.2.3.4"], []⟩],
          [⟨str "old.example.com", str "A", 300, [str "5.6.7.8"], []⟩], [], []⟩).1.createSnapshot
      ≠ (Tidy.ApplyChanges
        ⟨fun _ => Except.ok [], fun _ _ => true, fun _ _ => true⟩
        (fun j => if j = 0 then [⟨str "1", str "example.com"⟩]
          else [⟨str "2", str "example.org"⟩])
        0
        ⟨[⟨str "www.example.com", str "A", 300, [str "1.2.3.4"], []⟩],
          [⟨str "old.example.com", str "A", 300, [str "5.6.7.8"], []⟩], [], []⟩).1.prefetchSnapshot := by
  refine ⟨rfl, by decide, ?_⟩
  intro hcontra
  have h1 : (Tidy.ApplyChanges
      ⟨fun _ => Except.ok [], fun _ _ => true, fun _ _ => true⟩
      (fun j => if j = 0 then [⟨str "1", str "example.com"⟩]
        else [⟨str "2", str "example.org"⟩])
      0
      ⟨[⟨str "www.example.com", str "A", 300, [str "1.2.3.4"], []⟩],
        [⟨str "old.example.com", str "A", 300, [str "5.6.7.8"], []⟩], [], []⟩).1.createSnapshot
      = [⟨str "1", str "example.com"⟩] := rfl
  have h2 : (Tidy.ApplyChanges
      ⟨fun _ => Except.ok [], fun _ _ => true, fun _ _ => true⟩
      (fun j => if j = 0 then [⟨str "1", str "example.com"⟩]
        else [⟨str "2", str "example.org"⟩])
      0
      ⟨[⟨str "www.example.com", str "A", 300, [str "1.2.3.4"], []⟩],
        [⟨str "old.example.com", str "A", 300, [str "5.6.7.8"], []⟩], [], []⟩).1.prefetchSnapshot
      = [⟨str "2", str "example.org"⟩] := rfl
  rw [h1, h2] at hcontra
  exact absurd hcontra (by decide)

/-- Closed witness for `ApplyChanges_two_snapshots`: a concrete call whose
pre-fetch succeeds resolves its delete against the pre-fetched records. -/
theorem ApplyChanges_two_snapshots_witness :
    Tidy.allRecords
        (fun _ => Except.ok
          [⟨str "9", str "A", str "www", [], str "1.2.3.4", str "300", str "example.com", str "1"⟩])
        ((fun _ => [⟨str "1", str "example.com"⟩]) (0 + 1))
      = Except.ok
          [⟨str "9", str "A", str "www", [], str "1.2.3.4", str "300", str "example.com", str "1"⟩] ∧
    (Tidy.ApplyChanges
        ⟨fun _ => Except.ok
            [⟨str "9", str "A", str "www", [], str "1.2.3.4", str "300", str "example.com", str "1"⟩],
          fun _ _ => true, fun _ _ => true⟩
        (fun _ => [⟨str "1", str "example.com"⟩]) 0
        ⟨[], [⟨str "www.example.com", str "A", 300, [str "1.2.3.4"], []⟩], [], []⟩).1.deleteOps
      = [⟨str "www.example.com", str "A", 300, [str "1.2.3.4"], []⟩].map
          (Tidy.deleteEndpoint (fun _ _ => true)
            [⟨str "9", str "A", str "www", [], str "1.2.3.4", str "300", str "example.com", str "1"⟩]) := by
  refine ⟨rfl, ?_⟩
  exact ((ApplyChanges_two_snapshots
      ⟨fun _ => Except.ok
          [⟨str "9", str "A", str "www", [], str "1.2.3.4", str "300", str "example.com", str "1"⟩],
        fun _ _ => true, fun _ _ => true⟩
      (fun _ => [⟨str "1", str "example.com"⟩]) 0
      ⟨[], [⟨str "www.example.com", str "A", 300, [str "1.2.3.4"], []⟩], [], []⟩).2.2.2.2
    [⟨str "9", str "A", str "www", [], str "1.2.3.4", str "300", str "example.com", str "1"⟩]
    rfl).1

theorem hasSuffix_append (a b : Str) : hasSuffix (a ++ b) b = true := by
  unfold hasSuffix
  have h1 : b.length ≤ (a ++ b).length := by simp
  have h2 : (a ++ b).drop ((a ++ b).length - b.length) = b := by
    have hl : (a ++ b).length - b.length = a.length := by simp
    rw [hl]
    exact List.drop_left a b
  simp [h1, h2]

theorem cutSuffix_append (a b : Str) : cutSuffix (a ++ b) b = a := by
  unfold cutSuffix
  rw [if_pos (hasSuffix_append a b)]
  have hl : (a ++ b).length - b.length = a.length := by simp
  rw [hl]
  exact List.take_left a b

theorem cutSuffix_self (b : Str) : cutSuffix b b = [] := by
  have h := cutSuffix_append [] b
  simpa using h

theorem restrictTTL_nonneg (t : Int) : 0 ≤ Tidy.restrictTTL t := by
  unfold Tidy.restrictTTL
  split <;> omega

theorem restrictTTL_le_int64 (t : Int) (h : t ≤ 2 ^ 63 - 1) :
    Tidy.restrictTTL t ≤ 2 ^ 63 - 1 := by
  unfold Tidy.restrictTTL
  split
  · norm_num
  · exact h

/-- `tidyfyName` resolves against the first zone whose name is a suffix of the
queried FQDN. -/
theorem tidyfyName_of_find? :
    ∀ (zones : List Tidy.Zone) (z : Tidy.Zone) (name : Str),
      zones.find? (fun z' => hasSuffix name z'.name) = some z →
      Tidy.tidyfyName zones name =
        if cutSuffix name z.name ≠ [] then
          (cutSuffix (cutSuffix name z.name) (str "."), z.id)
        else (str ".", z.id) := by
  intro zones
  induction zones with
  | nil => intro z name h; cases h
  | cons z0 zs ih =>
    intro z name h
    cases h0 : hasSuffix name z0.name with
    | true =>
      rw [List.find?_cons_of_pos _ (by rw [h0])] at h
      cases h
      unfold Tidy.tidyfyName
      rw [h0]
      simp
    | false =>
      rw [List.find?_cons_of_neg _ (by rw [h0]; exact Bool.false_ne_true)] at h
      unfold Tidy.tidyfyName
      rw [h0]
      simpa using ih z name h

/-- Evaluation of `parseTidyRecord` when FQDN and TTL are good. -/
theorem parseTidyRecord_eval {r : Tidy.Record} {ttl : Int}
    (hfq : Tidy.recordFQDN r ≠ []) (httl : parseInt64 r.ttl = some ttl) :
    Tidy.parseTidyRecord r
      = some ⟨Tidy.recordFQDN r, r.type, ttl, [Tidy.parsedDestination r], []⟩ := by
  unfold Tidy.parseTidyRecord
  rw [if_neg hfq, httl]

/-- C7 (amended): the create→read-back round trip preserves `dnsName` and
`recordType` and yields the clamped TTL for a single-target endpoint whose
`dnsName` is the first-matching zone's name itself (with that name nonempty)
or splits as `pre ++ "." ++ zoneName` with `pre` nonempty and not `"."`. -/
theorem endpointToRecords_roundTrip (zones : List Tidy.Zone) (e : Tidy.Endpoint)
    (z : Tidy.Zone) (t : Str)
    (htgt : e.targets = [t])
    (hfind : zones.find? (fun z' => hasSuffix e.dnsName z'.name) = some z)
    (hshape : (e.dnsName = z.name ∧ z.name ≠ []) ∨
      (∃ pre, pre ≠ [] ∧ pre ≠ str "." ∧ e.dnsName = pre ++ str "." ++ z.name))
    (httl : e.recordTTL ≤ 2 ^ 63 - 1) :
    ∃ rec e', Tidy.endpointToRecords zones e = [rec] ∧
      Tidy.parseTidyRecord { rec with zoneName := z.name } = some e' ∧
      e'.dnsName = e.dnsName ∧ e'.recordType = e.recordType ∧
      e'.recordTTL = Tidy.restrictTTL e.recordTTL := by
  have httl' : parseInt64 (itoa (Tidy.restrictTTL e.recordTTL))
      = some (Tidy.restrictTTL e.recordTTL) :=
    parseInt64_itoa (restrictTTL_nonneg e.recordTTL) (restrictTTL_le_int64 e.recordTTL httl)
  rcases hshape with ⟨hap, hzn⟩ | ⟨pre, hpre0, hpre1, hdns⟩
  · have hcut : cutSuffix e.dnsName z.name = [] := by
      rw [hap]; exact cutSuffix_self z.name
    have hmap : Tidy.tidyfyName zones e.dnsName = (str ".", z.id) := by
      rw [tidyfyName_of_find? zones z e.dnsName hfind, hcut]
      simp
    have hrec : Tidy.endpointToRecords zones e
        = [Tidy.mkCreateRecord e.recordType (str ".") (Tidy.restrictTTL e.recordTTL) t] := by
      unfold Tidy.endpointToRecords
      rw [hmap, htgt]
      rw [if_neg (show ¬ (str "." = ([] : Str)) by decide)]
      rfl
    have hfq : Tidy.recordFQDN
        { Tidy.mkCreateRecord e.recordType (str ".") (Tidy.restrictTTL e.recordTTL) t with
          zoneName := z.name } = z.name := by
      show (if str "." = str "." then z.name else _) = z.name
      rw [if_pos rfl]
    have hfqne : Tidy.recordFQDN
        { Tidy.mkCreateRecord e.recordType (str ".") (Tidy.restrictTTL e.recordTTL) t with
          zoneName := z.name } ≠ [] := by
      rw [hfq]; exact hzn
    have hparse := parseTidyRecord_eval hfqne
      (show parseInt64 (itoa (Tidy.restrictTTL e.recordTTL))
          = some (Tidy.restrictTTL e.recordTTL) from httl')
    refine ⟨_, _, hrec, hparse, ?_, rfl, rfl⟩
    exact hfq.trans hap.symm
  · have hcut : cutSuffix e.dnsName z.name = pre ++ str "." := by
      rw [hdns]; exact cutSuffix_append (pre ++ str ".") z.name
    have hcutne : pre ++ str "." ≠ [] := by simp [str]
    have hmap : Tidy.tidyfyName zones e.dnsName = (pre, z.id) := by
      rw [tidyfyName_of_find? zones z e.dnsName hfind, hcut, if_pos hcutne,
        cutSuffix_append pre (str ".")]
    have hrec : Tidy.endpointToRecords zones e
        = [Tidy.mkCreateRecord e.recordType pre (Tidy.restrictTTL e.recordTTL) t] := by
      unfold Tidy.endpointToRecords
      rw [hmap, htgt]
      rw [if_neg (show ¬ ((pre, z.id).1 = []) from hpre0)]
      rfl
    have hfq : Tidy.recordFQDN
        { Tidy.mkCreateRecord e.recordType pre (Tidy.restrictTTL e.recordTTL) t with
          zoneName := z.name } = e.dnsName := by
      show (if pre = str "." then z.name else pre ++ str "." ++ z.name) = e.dnsName
      rw [if_neg hpre1, hdns]
    have hfqne : Tidy.recordFQDN
        { Tidy.mkCreateRecord e.recordType pre (Tidy.restrictTTL e.recordTTL) t with
          zoneName := z.name } ≠ [] := by
      rw [hfq, hdns]
      intro hc
      have := congrArg List.length hc
      simp [str] at this
    have hparse := parseTidyRecord_eval hfqne
      (show parseInt64 (itoa (Tidy.restrictTTL e.recordTTL))
          = some (Tidy.restrictTTL e.recordTTL) from httl')
    refine ⟨_, _, hrec, hparse, ?_, rfl, rfl⟩
    exact hfq

/-- C7 counterexample: `subexample.com` maps into zone `example.com` (the
suffix test needs no dot boundary), is created as relative name `sub`, and
reads back as `sub.example.com` — the round trip does not return the original
`dnsName`. -/
theorem roundTrip_counterexample :
    (Tidy.tidyfyName [⟨str "1", str "example.com"⟩] (str "subexample.com")).1 = str "sub" ∧
    (Tidy.endpointToRecords [⟨str "1", str "example.com"⟩]
        ⟨str "subexample.com", str "A", 300, [str "1.2.3.4"], []⟩).map
        (fun rec =>
          (Tidy.parseTidyRecord { rec with zoneName := str "example.com" }).map
            Tidy.Endpoint.dnsName)
      = [some (str "sub.example.com")] ∧
    str "sub.example.com" ≠ str "subexample.com" := by
  refine ⟨by decide, ?_, by decide⟩
  have hmap : Tidy.tidyfyName [⟨str "1", str "example.com"⟩] (str "subexample.com")
      = (str "sub", str "1") := by decide
  have hrec : Tidy.endpointToRecords [⟨str "1", str "example.com"⟩]
      ⟨str "subexample.com", str "A", 300, [str "1.2.3.4"], []⟩
      = [Tidy.mkCreateRecord (str "A") (str "sub") (Tidy.restrictTTL 300) (str "1.2.3.4")] := by
    unfold Tidy.endpointToRecords
    rw [hmap]
    rw [if_neg (show ¬ (str "sub" = ([] : Str)) by decide)]
    rfl
  have httl : parseInt64 (itoa (Tidy.restrictTTL 300)) = some (Tidy.restrictTTL 300) :=
    parseInt64_itoa (restrictTTL_nonneg 300) (restrictTTL_le_int64 300 (by norm_num))
  have hfqne : Tidy.recordFQDN
      { Tidy.mkCreateRecord (str "A") (str "sub") (Tidy.restrictTTL 300) (str "1.2.3.4") with
        zoneName := str "example.com" } ≠ [] := by decide
  have hparse := parseTidyRecord_eval hfqne httl
  rw [hrec, List.map_cons, List.map_nil, hparse]
  decide

/-- Closed witness for `endpointToRecords_roundTrip` at a concrete endpoint
in a known zone with a sub-300 TTL. -/
theorem endpointToRecords_roundTrip_witness :
    List.find? (fun z' => hasSuffix (str "www.example.com") z'.name)
        [(⟨str "1", str "example.com"⟩ : Tidy.Zone)]
      = some ⟨str "1", str "example.com"⟩ ∧
    (∃ rec e',
      Tidy.endpointToRecords [⟨str "1", str "example.com"⟩]
          ⟨str "www.example.com", str "A", 100, [str "1.2.3.4"], []⟩ = [rec] ∧
      Tidy.parseTidyRecord { rec with zoneName := str "example.com" } = some e' ∧
      e'.dnsName = str "www.example.com" ∧ e'.recordType = str "A" ∧
      e'.recordTTL = Tidy.restrictTTL 100) := by
  refine ⟨by decide, ?_⟩
  exact endpointToRecords_roundTrip [⟨str "1", str "example.com"⟩]
    ⟨str "www.example.com", str "A", 100, [str "1.2.3.4"], []⟩
    ⟨str "1", str "example.com"⟩ (str "1.2.3.4") rfl (by decide)
    (Or.inr ⟨str "www", by decide, by decide, by decide⟩) (by norm_num)
